import Mathlib

/-!
Shallow embedding of the `pid-rs` PID controller library (`src/lib.rs`).

The Rust code is generic over a `Float` trait providing an ordered field
with named constants (`negative`, `double`, `one`, `half`, `zero`) and a
conversion from `std::time::Duration` to seconds.  We instantiate the
scalar type with `ℚ`, an ordered field whose arithmetic is exact and
decidable; durations are modelled by their value in seconds (a scalar),
so `from_duration` is the identity.  Each Rust method that mutates
`&mut self` becomes a pure function returning the new state (paired with
the returned scalar for `update`).
-/

namespace Pid

/-- The scalar type instantiating the Rust `Float` trait. -/
abbrev Scalar := ℚ

/-- `Float::negative`, the constant `-1`. -/
def negative : Scalar := -1

/-- `Float::double`, the constant `2`. -/
def double : Scalar := 2

/-- `Float::one`, the constant `1`. -/
def one : Scalar := 1

/-- `Float::half`, the constant `0.5`. -/
def half : Scalar := 1 / 2

/-- `Float::zero`, the constant `0`. -/
def zero : Scalar := 0

/-- `Float::from_duration`: durations are modelled as their length in
seconds, so conversion to the scalar type is the identity. -/
def from_duration (dur : Scalar) : Scalar := dur

/-- Rust `std::ops::Range<T>`: half-open in Rust iteration, but here only
its two endpoint fields `start` and `end` are ever read (for clamping). -/
structure Range where
  start : Scalar
  «end» : Scalar
deriving Repr, DecidableEq

/-- `Proportional<T>`: the P term, holding only its gain. -/
structure Proportional where
  gain : Scalar
deriving Repr, DecidableEq

/-- `Proportional::new(gain)`. -/
def Proportional.new (gain : Scalar) : Proportional :=
  { gain := gain }

/-- `Proportional::init`: the body is empty, leaving the state unchanged. -/
def Proportional.init (p : Proportional) : Proportional := p

/-- `Proportional::update(setpoint, measurement, _)`: returns
`gain * (setpoint - measurement)`; the state is untouched. -/
def Proportional.update (p : Proportional) (setpoint measurement : Scalar)
    (_sample_time : Scalar) : Proportional × Scalar :=
  let error := setpoint - measurement
  (p, p.gain * error)

/-- `Integrator<T>`: the I term with its clamped accumulator. -/
structure Integrator where
  value : Scalar
  gain : Scalar
  previous_error : Scalar
  output_limit : Range
deriving Repr, DecidableEq

/-- `Integrator::new(gain, output_limit)`. -/
def Integrator.new (gain : Scalar) (output_limit : Range) : Integrator :=
  { value := zero, gain := gain, previous_error := zero, output_limit := output_limit }

/-- `Integrator::clamp_value`: pins `value` to `output_limit.end` when it
exceeds it, else to `output_limit.start` when it falls below it. -/
def Integrator.clamp_value (s : Integrator) : Integrator :=
  if s.value > s.output_limit.«end» then
    { s with value := s.output_limit.«end» }
  else if s.value < s.output_limit.start then
    { s with value := s.output_limit.start }
  else s

/-- `Integrator::init`: resets `value` and `previous_error` to zero. -/
def Integrator.init (s : Integrator) : Integrator :=
  { s with value := zero, previous_error := zero }

/-- `Integrator::update(setpoint, measurement, sample_time)`: trapezoidal
accumulation followed by the anti-windup clamp. -/
def Integrator.update (s : Integrator) (setpoint measurement sample_time : Scalar) :
    Integrator × Scalar :=
  let error := setpoint - measurement
  let new_value := half * s.gain * from_duration sample_time * (error + s.previous_error)
  let s1 : Integrator := { s with value := s.value + new_value }
  let s2 := s1.clamp_value
  let s3 : Integrator := { s2 with previous_error := error }
  (s3, s3.value)

/-- `Differentiator<T>`: the D term, a low-pass-filtered differentiator. -/
structure Differentiator where
  value : Scalar
  gain : Scalar
  time_constant : Scalar
  previous_measurement : Scalar
deriving Repr, DecidableEq

/-- `Differentiator::new(gain, time_constant)`. -/
def Differentiator.new (gain time_constant : Scalar) : Differentiator :=
  { value := zero, gain := gain, time_constant := time_constant,
    previous_measurement := zero }

/-- `Differentiator::init`: resets `value` and `previous_measurement`. -/
def Differentiator.init (s : Differentiator) : Differentiator :=
  { s with value := zero, previous_measurement := zero }

/-- `Differentiator::update(_, measurement, sample_time)`: bilinear
filtered derivative of the measurement; the setpoint is ignored. -/
def Differentiator.update (s : Differentiator) (_setpoint measurement sample_time : Scalar) :
    Differentiator × Scalar :=
  let measurement_error := measurement - s.previous_measurement
  let numerator := negative *
    (double * s.gain * measurement_error +
      (double * s.time_constant - from_duration sample_time) * s.value)
  let denominator := double * s.time_constant + from_duration sample_time
  let s1 : Differentiator := { s with previous_measurement := measurement }
  let s2 : Differentiator := { s1 with value := numerator / denominator }
  (s2, s2.value)

/-- `Controller<T>`: owns the three terms, the global output limit, the
fixed sample time, and the last computed output. -/
structure Controller where
  output_limit : Range
  sample_time : Scalar
  p : Proportional
  i : Integrator
  d : Differentiator
  out : Scalar
deriving Repr, DecidableEq

/-- `Controller::new(output_limit, sample_time, p, i, d)`. -/
def Controller.new (output_limit : Range) (sample_time : Scalar)
    (p : Proportional) (i : Integrator) (d : Differentiator) : Controller :=
  { output_limit := output_limit, sample_time := sample_time,
    p := p, i := i, d := d, out := zero }

/-- `Controller::init`: resets each term and `out`, keeping configuration. -/
def Controller.init (c : Controller) : Controller :=
  { c with p := c.p.init, i := c.i.init, d := c.d.init, out := zero }

/-- `Controller::update(setpoint, measurement)`: drives the three terms
with the same arguments and the fixed sample time, sums, clamps, stores
and returns. -/
def Controller.update (c : Controller) (setpoint measurement : Scalar) :
    Controller × Scalar :=
  let pr := c.p.update setpoint measurement c.sample_time
  let ir := c.i.update setpoint measurement c.sample_time
  let dr := c.d.update setpoint measurement c.sample_time
  let sum := pr.2 + ir.2 + dr.2
  let out :=
    if sum > c.output_limit.«end» then c.output_limit.«end»
    else if sum < c.output_limit.start then c.output_limit.start
    else sum
  ({ c with p := pr.1, i := ir.1, d := dr.1, out := out }, out)

/-- Outputs of a sequence of `Controller::update` calls, one per
`(setpoint, measurement)` pair, threading the state. -/
def Controller.runOutputs (c : Controller) : List (Scalar × Scalar) → List Scalar
  | [] => []
  | (s, m) :: rest =>
    let r := c.update s m
    r.2 :: r.1.runOutputs rest

/-- Outputs of a sequence of `Integrator::update` calls, one per
`(setpoint, measurement, sample_time)` triple, threading the state. -/
def Integrator.runOutputs (s : Integrator) : List (Scalar × Scalar × Scalar) → List Scalar
  | [] => []
  | (sp, m, dt) :: rest =>
    let r := s.update sp m dt
    r.2 :: r.1.runOutputs rest

/-- States after each `Integrator::update` call of a sequence. -/
def Integrator.runStates (s : Integrator) : List (Scalar × Scalar × Scalar) → List Integrator
  | [] => []
  | (sp, m, dt) :: rest =>
    let r := s.update sp m dt
    r.1 :: r.1.runStates rest

/-- State after `n` repeated `Integrator::update` calls with fixed
arguments. -/
def Integrator.iterate (s : Integrator) (sp m dt : Scalar) : Nat → Integrator
  | 0 => s
  | n + 1 => ((s.update sp m dt).1).iterate sp m dt n

/-- Outputs of `n` repeated `Integrator::update` calls with fixed
arguments. -/
def Integrator.iterOutputs (s : Integrator) (sp m dt : Scalar) : Nat → List Scalar
  | 0 => []
  | n + 1 =>
    let r := s.update sp m dt
    r.2 :: r.1.iterOutputs sp m dt n

/-- State after `n` repeated `Differentiator::update` calls with fixed
arguments. -/
def Differentiator.iterate (s : Differentiator) (sp m dt : Scalar) : Nat → Differentiator
  | 0 => s
  | n + 1 => ((s.update sp m dt).1).iterate sp m dt n

end Pid

namespace Pid

/-! ### Helper lemmas (shared across several claims) -/

theorem Integrator.clamp_value_value (s : Integrator) :
    s.clamp_value.value =
      if s.value > s.output_limit.«end» then s.output_limit.«end»
      else if s.value < s.output_limit.start then s.output_limit.start
      else s.value := by
  unfold Integrator.clamp_value
  split_ifs <;> rfl

theorem Integrator.clamp_value_output_limit (s : Integrator) :
    s.clamp_value.output_limit = s.output_limit := by
  unfold Integrator.clamp_value
  split_ifs <;> rfl

theorem Integrator.clamp_value_gain (s : Integrator) :
    s.clamp_value.gain = s.gain := by
  unfold Integrator.clamp_value
  split_ifs <;> rfl

theorem Integrator.clamp_value_mem (s : Integrator)
    (h : s.output_limit.start ≤ s.output_limit.«end») :
    s.output_limit.start ≤ s.clamp_value.value ∧
      s.clamp_value.value ≤ s.output_limit.«end» := by
  unfold Integrator.clamp_value
  split_ifs with h1 h2
  · exact ⟨h, le_refl _⟩
  · exact ⟨le_refl _, h⟩
  · exact ⟨le_of_not_lt h2, le_of_not_lt h1⟩

theorem Integrator.update_output_limit (s : Integrator) (sp m dt : Scalar) :
    (s.update sp m dt).1.output_limit = s.output_limit := by
  simp only [Integrator.update]
  exact Integrator.clamp_value_output_limit _

theorem Integrator.update_value_mem (s : Integrator) (sp m dt : Scalar)
    (h : s.output_limit.start ≤ s.output_limit.«end») :
    s.output_limit.start ≤ (s.update sp m dt).1.value ∧
      (s.update sp m dt).1.value ≤ s.output_limit.«end» := by
  simp only [Integrator.update]
  exact Integrator.clamp_value_mem _ h

end Pid

namespace Pid

/-- **C8.** `Proportional::update` returns `gain * (setpoint - measurement)`,
leaves the state unchanged, and is independent of the sample duration. -/
theorem proportional_update_spec (p : Proportional) (sp m dt : Scalar) :
    p.update sp m dt = (p, p.gain * (sp - m)) ∧
    ∀ dt2, p.update sp m dt2 = p.update sp m dt := by
  exact ⟨rfl, fun dt2 => rfl⟩

/-- **C4.** `Differentiator::update` ignores the setpoint, computes
`value = negative * (double * gain * delta + (double * time_constant -
seconds(sample_time)) * value) / (double * time_constant +
seconds(sample_time))` with `delta = measurement - previous_measurement`,
records the measurement in `previous_measurement`, keeps the configuration
and returns the new value; concretely, with gain 1, time constant 0 and
sample time 1 s, the first update at measurement 1 returns -2. -/
theorem differentiator_update_spec (s : Differentiator) (sp m dt : Scalar) :
    (s.update sp m dt).2 =
      negative * (double * s.gain * (m - s.previous_measurement) +
        (double * s.time_constant - from_duration dt) * s.value) /
      (double * s.time_constant + from_duration dt) ∧
    (s.update sp m dt).1.value = (s.update sp m dt).2 ∧
    (s.update sp m dt).1.previous_measurement = m ∧
    (s.update sp m dt).1.gain = s.gain ∧
    (s.update sp m dt).1.time_constant = s.time_constant ∧
    (∀ sp2, s.update sp2 m dt = s.update sp m dt) ∧
    ((Differentiator.new 1 0).update 0 1 1).2 = -2 := by
  refine ⟨rfl, rfl, rfl, rfl, rfl, fun sp2 => rfl, ?_⟩
  norm_num [Differentiator.update, Differentiator.new,
    negative, double, from_duration, zero]

/-- **C2.** `Integrator::update` adds the trapezoidal increment
`half * gain * seconds(sample_time) * (error + previous_error)` to the
accumulator, clamps the accumulator into the output limit, records the
error and returns the clamped accumulator; concretely, with gain 1, limit
[-100, 100] and sample time 1 s, two updates at setpoint 1 / measurement 0
return 0.5 then 1.5. -/
theorem integrator_update_spec (s : Integrator) (sp m dt : Scalar) :
    (s.update sp m dt).2 =
      (if s.value + half * s.gain * from_duration dt * ((sp - m) + s.previous_error)
            > s.output_limit.«end» then
        s.output_limit.«end»
       else if s.value + half * s.gain * from_duration dt * ((sp - m) + s.previous_error)
            < s.output_limit.start then
        s.output_limit.start
       else
        s.value + half * s.gain * from_duration dt * ((sp - m) + s.previous_error)) ∧
    (s.update sp m dt).1.value = (s.update sp m dt).2 ∧
    (s.update sp m dt).1.previous_error = sp - m ∧
    (s.update sp m dt).1.gain = s.gain ∧
    (s.update sp m dt).1.output_limit = s.output_limit ∧
    ((Integrator.new 1 { start := -100, «end» := 100 }).update 1 0 1).2 = 1 / 2 ∧
    (((Integrator.new 1 { start := -100, «end» := 100 }).update 1 0 1).1.update 1 0 1).2
      = 3 / 2 := by
  refine ⟨?_, rfl, rfl, ?_, Integrator.update_output_limit s sp m dt, ?_, ?_⟩
  · show (({ s with value := _ } : Integrator).clamp_value).value = _
    rw [Integrator.clamp_value_value]
  · show (({ s with value := _ } : Integrator).clamp_value).gain = _
    rw [Integrator.clamp_value_gain]
  · norm_num [Integrator.update, Integrator.clamp_value, Integrator.new,
      half, from_duration, zero]
  · norm_num [Integrator.update, Integrator.clamp_value, Integrator.new,
      half, from_duration, zero]

/-- **C5.** Reset equivalence: `init` followed by `update` coincides, in
output and in the whole resulting state, with a freshly constructed
controller of the same configuration receiving the same first `update`. -/
theorem controller_reset_equivalence (c : Controller) (sp m : Scalar) :
    c.init.update sp m =
      (Controller.new c.output_limit c.sample_time (Proportional.new c.p.gain)
        (Integrator.new c.i.gain c.i.output_limit)
        (Differentiator.new c.d.gain c.d.time_constant)).update sp m := rfl

theorem clamp_shape_mem (lo hi x : Scalar) (h : lo ≤ hi) :
    lo ≤ (if x > hi then hi else if x < lo then lo else x) ∧
      (if x > hi then hi else if x < lo then lo else x) ≤ hi := by
  split_ifs with h1 h2
  · exact ⟨h, le_refl _⟩
  · exact ⟨le_refl _, h⟩
  · exact ⟨le_of_not_lt h2, le_of_not_lt h1⟩

theorem Controller.update_mem (c : Controller) (sp m : Scalar)
    (h : c.output_limit.start ≤ c.output_limit.«end») :
    c.output_limit.start ≤ (c.update sp m).2 ∧
      (c.update sp m).2 ≤ c.output_limit.«end» := by
  simp only [Controller.update]
  exact clamp_shape_mem _ _ _ h

theorem Controller.runOutputs_all_mem (inputs : List (Scalar × Scalar)) :
    ∀ c : Controller, c.output_limit.start ≤ c.output_limit.«end» →
      ∀ o ∈ c.runOutputs inputs,
        c.output_limit.start ≤ o ∧ o ≤ c.output_limit.«end» := by
  induction inputs with
  | nil =>
    intro c h o ho
    simp [Controller.runOutputs] at ho
  | cons x rest ih =>
    obtain ⟨sp, m⟩ := x
    intro c h o ho
    simp only [Controller.runOutputs] at ho
    rcases List.mem_cons.mp ho with h1 | h1
    · subst h1
      exact Controller.update_mem c sp m h
    · have hpres : (c.update sp m).1.output_limit = c.output_limit := rfl
      have h2 : (c.update sp m).1.output_limit.start ≤
          (c.update sp m).1.output_limit.«end» := by
        rw [hpres]; exact h
      have h3 := ih (c.update sp m).1 h2 o h1
      rwa [hpres] at h3

/-- **C1.** `Controller::update` drives the three owned terms with the same
setpoint, measurement and fixed sample time, sums their outputs, clamps the
sum into the configured output range, stores it in `out` and returns it;
with an ordered limit range the returned output stays within the range, on
each call and along any sequence of updates. -/
theorem controller_update_spec (c : Controller) (sp m : Scalar)
    (h : c.output_limit.start ≤ c.output_limit.«end») :
    ((c.update sp m).2 =
      (if (c.p.update sp m c.sample_time).2 + (c.i.update sp m c.sample_time).2 +
            (c.d.update sp m c.sample_time).2 > c.output_limit.«end» then
        c.output_limit.«end»
       else if (c.p.update sp m c.sample_time).2 + (c.i.update sp m c.sample_time).2 +
            (c.d.update sp m c.sample_time).2 < c.output_limit.start then
        c.output_limit.start
       else
        (c.p.update sp m c.sample_time).2 + (c.i.update sp m c.sample_time).2 +
          (c.d.update sp m c.sample_time).2)) ∧
    (c.update sp m).1.p = (c.p.update sp m c.sample_time).1 ∧
    (c.update sp m).1.i = (c.i.update sp m c.sample_time).1 ∧
    (c.update sp m).1.d = (c.d.update sp m c.sample_time).1 ∧
    (c.update sp m).1.out = (c.update sp m).2 ∧
    (c.update sp m).1.output_limit = c.output_limit ∧
    (c.update sp m).1.sample_time = c.sample_time ∧
    (c.output_limit.start ≤ (c.update sp m).2 ∧
      (c.update sp m).2 ≤ c.output_limit.«end») ∧
    ∀ inputs : List (Scalar × Scalar), ∀ o ∈ c.runOutputs inputs,
      c.output_limit.start ≤ o ∧ o ≤ c.output_limit.«end» := by
  exact ⟨rfl, rfl, rfl, rfl, rfl, rfl, rfl, Controller.update_mem c sp m h,
    fun inputs => Controller.runOutputs_all_mem inputs c h⟩

theorem Integrator.runOutputs_each_mem (inputs : List (Scalar × Scalar × Scalar)) :
    ∀ s : Integrator, s.output_limit.start ≤ s.output_limit.«end» →
      ∀ o ∈ s.runOutputs inputs,
        s.output_limit.start ≤ o ∧ o ≤ s.output_limit.«end» := by
  induction inputs with
  | nil =>
    intro s h o ho
    simp [Integrator.runOutputs] at ho
  | cons x rest ih =>
    obtain ⟨sp, m, dt⟩ := x
    intro s h o ho
    simp only [Integrator.runOutputs] at ho
    rcases List.mem_cons.mp ho with h1 | h1
    · subst h1
      exact Integrator.update_value_mem s sp m dt h
    · have hpres := Integrator.update_output_limit s sp m dt
      have h2 : (s.update sp m dt).1.output_limit.start ≤
          (s.update sp m dt).1.output_limit.«end» := by
        rw [hpres]; exact h
      have h3 := ih (s.update sp m dt).1 h2 o h1
      rwa [hpres] at h3

theorem Integrator.runStates_mem (inputs : List (Scalar × Scalar × Scalar)) :
    ∀ s : Integrator, s.output_limit.start ≤ s.output_limit.«end» →
      ∀ st ∈ s.runStates inputs,
        s.output_limit.start ≤ st.value ∧ st.value ≤ s.output_limit.«end» := by
  induction inputs with
  | nil =>
    intro s h st hst
    simp [Integrator.runStates] at hst
  | cons x rest ih =>
    obtain ⟨sp, m, dt⟩ := x
    intro s h st hst
    simp only [Integrator.runStates] at hst
    rcases List.mem_cons.mp hst with h1 | h1
    · subst h1
      exact Integrator.update_value_mem s sp m dt h
    · have hpres := Integrator.update_output_limit s sp m dt
      have h2 : (s.update sp m dt).1.output_limit.start ≤
          (s.update sp m dt).1.output_limit.«end» := by
        rw [hpres]; exact h
      have h3 := ih (s.update sp m dt).1 h2 st h1
      rwa [hpres] at h3

/-- **C3.** Anti-windup invariant: along any sequence of `Integrator::update`
calls with arbitrary setpoints, measurements and sample times, provided the
output limit is an ordered range, the accumulated value after each update
(and hence each returned value, which equals it) stays within
`[output_limit.start, output_limit.end]`. -/
theorem integrator_anti_windup (s0 : Integrator)
    (h : s0.output_limit.start ≤ s0.output_limit.«end»)
    (inputs : List (Scalar × Scalar × Scalar)) :
    (∀ o ∈ s0.runOutputs inputs,
      s0.output_limit.start ≤ o ∧ o ≤ s0.output_limit.«end») ∧
    (∀ st ∈ s0.runStates inputs,
      s0.output_limit.start ≤ st.value ∧ st.value ≤ s0.output_limit.«end») ∧
    ∀ sp m dt, (s0.update sp m dt).2 = (s0.update sp m dt).1.value := by
  exact ⟨Integrator.runOutputs_each_mem inputs s0 h,
    Integrator.runStates_mem inputs s0 h, fun sp m dt => rfl⟩

theorem Integrator.update_zero_error (s : Integrator) (sp dt : Scalar)
    (hv : s.value = 0) (hp : s.previous_error = 0)
    (h0 : s.output_limit.start ≤ 0) (h1 : 0 ≤ s.output_limit.«end») :
    s.update sp sp dt = (s, 0) := by
  obtain ⟨v, g, pe, ol⟩ := s
  replace hv : v = 0 := hv
  replace hp : pe = 0 := hp
  replace h0 : ol.start ≤ 0 := h0
  replace h1 : (0 : Scalar) ≤ ol.«end» := h1
  subst hv; subst hp
  simp only [Integrator.update, Integrator.clamp_value, sub_self, add_zero, mul_zero,
    zero_add]
  rw [if_neg (not_lt.mpr h1), if_neg (not_lt.mpr h0)]

theorem Integrator.iterate_zero_error (s : Integrator) (sp dt : Scalar)
    (hv : s.value = 0) (hp : s.previous_error = 0)
    (h0 : s.output_limit.start ≤ 0) (h1 : 0 ≤ s.output_limit.«end») :
    ∀ n, s.iterate sp sp dt n = s := by
  intro n
  induction n with
  | zero => rfl
  | succ k ih =>
    show ((s.update sp sp dt).1).iterate sp sp dt k = s
    rw [Integrator.update_zero_error s sp dt hv hp h0 h1]
    exact ih

theorem Integrator.iterOutputs_zero_error (s : Integrator) (sp dt : Scalar)
    (hv : s.value = 0) (hp : s.previous_error = 0)
    (h0 : s.output_limit.start ≤ 0) (h1 : 0 ≤ s.output_limit.«end») :
    ∀ n, s.iterOutputs sp sp dt n = List.replicate n 0 := by
  intro n
  induction n with
  | zero => rfl
  | succ k ih =>
    show (s.update sp sp dt).2 :: ((s.update sp sp dt).1).iterOutputs sp sp dt k = _
    rw [Integrator.update_zero_error s sp dt hv hp h0 h1]
    rw [List.replicate_succ]
    exact congrArg (List.cons 0) ih

/-- **C6 (counterexample).** The claim fails when the output limit excludes
zero: with gain 1 and limit [5, 10], the very first zero-error update after
`init` returns 5, not 0, because the anti-windup clamp pins the zero
accumulator to the lower bound. -/
theorem integrator_idempotent_zero_cex :
    ((Integrator.new 1 { start := 5, «end» := 10 }).init.update 0 0 1).2 = 5 ∧
    ((Integrator.new 1 { start := 5, «end» := 10 }).init.update 0 0 1).2 ≠ 0 := by
  constructor <;>
    norm_num [Integrator.update, Integrator.clamp_value, Integrator.new,
      Integrator.init, half, from_duration, zero]

/-- **C6 (amended).** Provided the output limit contains zero
(`output_limit.start ≤ 0 ≤ output_limit.end`), repeated zero-error updates
`update(s, s, dt)` from the `init` state leave the accumulated value and
the previous error at zero indefinitely, each call returning zero. -/
theorem integrator_idempotent_zero (s0 : Integrator) (sp dt : Scalar) (n : Nat)
    (h0 : s0.output_limit.start ≤ 0) (h1 : 0 ≤ s0.output_limit.«end») :
    (s0.init.iterate sp sp dt n).value = 0 ∧
    (s0.init.iterate sp sp dt n).previous_error = 0 ∧
    s0.init.iterOutputs sp sp dt n = List.replicate n 0 := by
  have hit := Integrator.iterate_zero_error s0.init sp dt rfl rfl h0 h1 n
  have hout := Integrator.iterOutputs_zero_error s0.init sp dt rfl rfl h0 h1 n
  rw [hit]
  exact ⟨rfl, rfl, hout⟩

/-- Witness for C6: gain 1, limit [-100, 100], setpoint 7, sample time 1 s,
three repetitions. -/
theorem integrator_idempotent_zero_witness :
    ((Integrator.new 1 { start := -100, «end» := 100 }).init.iterate 7 7 1 3).value = 0 ∧
    ((Integrator.new 1 { start := -100, «end» := 100 }).init.iterate 7 7 1 3).previous_error
      = 0 ∧
    (Integrator.new 1 { start := -100, «end» := 100 }).init.iterOutputs 7 7 1 3
      = List.replicate 3 0 :=
  integrator_idempotent_zero (Integrator.new 1 { start := -100, «end» := 100 }) 7 1 3
    (by decide) (by decide)

/-- **C7.** Under the documented precondition `time_constant ≥ 0` and
`sample_time > 0`, the differentiator's denominator
`double * time_constant + seconds(sample_time)` is strictly positive and in
particular nonzero, so the division in `Differentiator::update` is
well-defined; the division is performed unconditionally (no guard), its
result being stored as the new `value`. -/
theorem differentiator_denominator_spec (s : Differentiator) (dt : Scalar)
    (htc : 0 ≤ s.time_constant) (hdt : 0 < dt) :
    0 < double * s.time_constant + from_duration dt ∧
    double * s.time_constant + from_duration dt ≠ 0 ∧
    ∀ sp m, (s.update sp m dt).1.value =
      negative * (double * s.gain * (m - s.previous_measurement) +
        (double * s.time_constant - from_duration dt) * s.value) /
      (double * s.time_constant + from_duration dt) := by
  have hpos : 0 < double * s.time_constant + from_duration dt := by
    simp only [double, from_duration]
    linarith
  exact ⟨hpos, ne_of_gt hpos, fun sp m => rfl⟩

/-- Witness for C7: time constant 0 and sample time 1 s satisfy the
precondition, and the denominator is positive there. -/
theorem differentiator_denominator_spec_witness :
    0 < double * (Differentiator.new 1 0).time_constant + from_duration 1 :=
  (differentiator_denominator_spec (Differentiator.new 1 0) 1 (by decide) (by decide)).1

theorem Differentiator.update_const_meas (s : Differentiator) (sp m dt : Scalar)
    (hm : s.previous_measurement = m) :
    s.update sp m dt =
      ({ s with value := (from_duration dt - double * s.time_constant) /
          (double * s.time_constant + from_duration dt) * s.value },
       (from_duration dt - double * s.time_constant) /
          (double * s.time_constant + from_duration dt) * s.value) := by
  simp only [Differentiator.update, hm]
  have hval : negative * (double * s.gain * (m - m) +
        (double * s.time_constant - from_duration dt) * s.value) /
      (double * s.time_constant + from_duration dt) =
      (from_duration dt - double * s.time_constant) /
        (double * s.time_constant + from_duration dt) * s.value := by
    rw [div_mul_eq_mul_div]
    congr 1
    simp only [negative]
    ring
  rw [hval]

theorem Differentiator.iterate_const_meas (s : Differentiator) (sp m dt : Scalar)
    (hm : s.previous_measurement = m) :
    ∀ n, s.iterate sp m dt n =
      { s with value := ((from_duration dt - double * s.time_constant) /
          (double * s.time_constant + from_duration dt)) ^ n * s.value } := by
  intro n
  induction n generalizing s with
  | zero =>
    simp only [Differentiator.iterate, pow_zero, one_mul]
  | succ k ih =>
    show ((s.update sp m dt).1).iterate sp m dt k = _
    rw [Differentiator.update_const_meas s sp m dt hm]
    rw [ih ({ s with value := (from_duration dt - double * s.time_constant) /
        (double * s.time_constant + from_duration dt) * s.value }) hm]
    simp only [Differentiator.mk.injEq, and_true]
    ring

/-- **C9 (counterexample).** With time constant 0 (allowed by the claimed
precondition `time_constant ≥ 0`) and sample time 1 s, a constant
measurement of 1 leaves `value` pinned at -2 forever: the first update sets
it to -2 and the second update, with the measurement unchanged, returns -2
again, so the magnitude does not decay toward zero. -/
theorem differentiator_zero_rate_cex :
    ((Differentiator.new 1 0).update 0 1 1).1.value = -2 ∧
    (((Differentiator.new 1 0).update 0 1 1).1.update 0 1 1).1.value =
      ((Differentiator.new 1 0).update 0 1 1).1.value ∧
    ((Differentiator.new 1 0).update 0 1 1).1.value ≠ 0 := by
  refine ⟨?_, ?_, ?_⟩ <;>
    norm_num [Differentiator.update, Differentiator.new,
      negative, double, from_duration, zero]

/-- **C9 (amended).** For a strictly positive time constant and sample time,
holding the measurement constant (the state's stored `previous_measurement`
already equals the measurement, as after a first call) makes each update
multiply `value` by the fixed ratio
`(seconds(sample_time) - double * time_constant) / (double * time_constant +
seconds(sample_time))`, whose absolute value is below 1: the value decays
geometrically toward zero, its magnitude strictly shrinking while nonzero.
(With `time_constant = 0` the ratio is 1 and the value persists, so the
claimed precondition `time_constant ≥ 0` must be strengthened to `> 0`.) -/
theorem differentiator_zero_rate (s : Differentiator) (sp m dt : Scalar)
    (htc : 0 < s.time_constant) (hdt : 0 < dt) (hm : s.previous_measurement = m) :
    |(from_duration dt - double * s.time_constant) /
        (double * s.time_constant + from_duration dt)| < 1 ∧
    (∀ n, (s.iterate sp m dt n).value =
      ((from_duration dt - double * s.time_constant) /
        (double * s.time_constant + from_duration dt)) ^ n * s.value) ∧
    (∀ n, |(s.iterate sp m dt n).value| =
      |(from_duration dt - double * s.time_constant) /
        (double * s.time_constant + from_duration dt)| ^ n * |s.value|) ∧
    ∀ n, (s.iterate sp m dt n).value ≠ 0 →
      |(s.iterate sp m dt (n + 1)).value| < |(s.iterate sp m dt n).value| := by
  have hD : 0 < double * s.time_constant + from_duration dt := by
    simp only [double, from_duration]
    linarith
  have hiter := Differentiator.iterate_const_meas s sp m dt hm
  have hval : ∀ n, (s.iterate sp m dt n).value =
      ((from_duration dt - double * s.time_constant) /
        (double * s.time_constant + from_duration dt)) ^ n * s.value := by
    intro n
    rw [hiter n]
  have ha : |(from_duration dt - double * s.time_constant) /
      (double * s.time_constant + from_duration dt)| < 1 := by
    rw [abs_lt]
    constructor
    · rw [lt_div_iff₀ hD]
      simp only [double, from_duration]
      linarith
    · rw [div_lt_one hD]
      simp only [double, from_duration]
      linarith
  have habs : ∀ n, |(s.iterate sp m dt n).value| =
      |(from_duration dt - double * s.time_constant) /
        (double * s.time_constant + from_duration dt)| ^ n * |s.value| := by
    intro n
    rw [hval n, abs_mul, abs_pow]
  refine ⟨ha, hval, habs, ?_⟩
  intro n hne
  have hne2 : ((from_duration dt - double * s.time_constant) /
      (double * s.time_constant + from_duration dt)) ^ n * s.value ≠ 0 := by
    rw [← hval n]
    exact hne
  calc |(s.iterate sp m dt (n + 1)).value|
      = |(from_duration dt - double * s.time_constant) /
          (double * s.time_constant + from_duration dt)| *
        |((from_duration dt - double * s.time_constant) /
          (double * s.time_constant + from_duration dt)) ^ n * s.value| := by
        rw [hval (n + 1), pow_succ, abs_mul, abs_mul, abs_mul]
        ring
    _ < 1 * |((from_duration dt - double * s.time_constant) /
          (double * s.time_constant + from_duration dt)) ^ n * s.value| := by
        exact mul_lt_mul_of_pos_right ha (abs_pos.mpr hne2)
    _ = |(s.iterate sp m dt n).value| := by
        rw [one_mul, hval n]

/-- Witness for C9: gain 1, time constant 1, sample time 1 s, constant
measurement 0 from the reset state; the decay ratio has magnitude below 1. -/
theorem differentiator_zero_rate_witness :
    |(from_duration 1 - double * (Differentiator.new 1 1).time_constant) /
        (double * (Differentiator.new 1 1).time_constant + from_duration 1)| < 1 :=
  (differentiator_zero_rate (Differentiator.new 1 1) 0 0 1 (by decide) (by decide) rfl).1

/-- **C10.** In `Integrator::clamp_value` and in the controller's output
clamp the upper bound is compared first: any value above `output_limit.end`
is pinned to `output_limit.end` without the lower bound being consulted, so
for an inverted range a value strictly between `end` and `start` is
deterministically pinned to `output_limit.end`. -/
theorem clamp_upper_bound_first (s : Integrator) (c : Controller) (sp m : Scalar)
    (hs : s.output_limit.«end» < s.value)
    (hc : c.output_limit.«end» <
      (c.p.update sp m c.sample_time).2 + (c.i.update sp m c.sample_time).2 +
        (c.d.update sp m c.sample_time).2) :
    s.clamp_value.value = s.output_limit.«end» ∧
    (c.update sp m).2 = c.output_limit.«end» ∧
    (s.value < s.output_limit.start → s.clamp_value.value = s.output_limit.«end») ∧
    ((c.p.update sp m c.sample_time).2 + (c.i.update sp m c.sample_time).2 +
        (c.d.update sp m c.sample_time).2 < c.output_limit.start →
      (c.update sp m).2 = c.output_limit.«end») := by
  have h1 : s.clamp_value.value = s.output_limit.«end» := by
    unfold Integrator.clamp_value
    rw [if_pos hs]
  have h2 : (c.update sp m).2 = c.output_limit.«end» := by
    simp only [Controller.update]
    rw [if_pos hc]
  exact ⟨h1, h2, fun _ => h1, fun _ => h2⟩

/-- Witness for C10: an integrator whose value 4 lies strictly between the
inverted bounds end = 3 and start = 5 is pinned to 3, and a controller with
the same inverted range whose raw sum is 4 returns 3. -/
theorem clamp_upper_bound_first_witness :
    (⟨4, 1, 0, { start := 5, «end» := 3 }⟩ : Integrator).clamp_value.value = 3 ∧
    ((⟨{ start := 5, «end» := 3 }, 1, ⟨1⟩, ⟨0, 0, 0, { start := -100, «end» := 100 }⟩,
        ⟨0, 0, 1, 0⟩, 0⟩ : Controller).update 4 0).2 = 3 := by
  have h := clamp_upper_bound_first
    (⟨4, 1, 0, { start := 5, «end» := 3 }⟩ : Integrator)
    (⟨{ start := 5, «end» := 3 }, 1, ⟨1⟩, ⟨0, 0, 0, { start := -100, «end» := 100 }⟩,
        ⟨0, 0, 1, 0⟩, 0⟩ : Controller) 4 0
    (by norm_num)
    (by norm_num [Proportional.update, Integrator.update, Integrator.clamp_value,
      Differentiator.update, negative, double, half, from_duration, zero])
  exact ⟨h.1, h.2.1⟩

/-- Witness for C1: limit [-10, 10], unit gains, sample time 1 s; the
output of the first update at setpoint 1, measurement 0 lies within the
range. -/
theorem controller_update_spec_witness :
    (-10 : Scalar) ≤
      ((⟨{ start := -10, «end» := 10 }, 1, ⟨1⟩,
        ⟨0, 1, 0, { start := -100, «end» := 100 }⟩, ⟨0, 1, 1, 0⟩, 0⟩ : Controller).update
          1 0).2 ∧
    ((⟨{ start := -10, «end» := 10 }, 1, ⟨1⟩,
        ⟨0, 1, 0, { start := -100, «end» := 100 }⟩, ⟨0, 1, 1, 0⟩, 0⟩ : Controller).update
          1 0).2 ≤ 10 :=
  (controller_update_spec
    (⟨{ start := -10, «end» := 10 }, 1, ⟨1⟩,
      ⟨0, 1, 0, { start := -100, «end» := 100 }⟩, ⟨0, 1, 1, 0⟩, 0⟩ : Controller) 1 0
    (by norm_num)).2.2.2.2.2.2.2.1

/-- Witness for C3: gain 1, limit [-10, 10], one update whose unclamped
accumulation (50) exceeds the limit; the returned output stays in range. -/
theorem integrator_anti_windup_witness :
    (Integrator.new 1 { start := -10, «end» := 10 }).output_limit.start ≤
      ((Integrator.new 1 { start := -10, «end» := 10 }).update 100 0 1).2 ∧
    ((Integrator.new 1 { start := -10, «end» := 10 }).update 100 0 1).2 ≤
      (Integrator.new 1 { start := -10, «end» := 10 }).output_limit.«end» :=
  (integrator_anti_windup (Integrator.new 1 { start := -10, «end» := 10 })
    (by norm_num [Integrator.new]) [(100, 0, 1)]).1
    ((Integrator.new 1 { start := -10, «end» := 10 }).update 100 0 1).2
    (by exact List.mem_cons_self _ _)

end Pid
